import Mathlib

/-!
Shallow embedding of `src/restaurant_finder.py` (class `RestaurantFinder`).

Modelling conventions:

* Python strings are Lean `String`s; character-level work happens on
  `List Char` via `String.data`.
* Python regex character classes are modelled on their ASCII content
  (`\d` = ASCII digits, `\s` = ASCII whitespace), which covers every
  string the program builds and the spec exercises.  `\w`, which the
  filename sanitiser applies to arbitrary city names, is modelled
  including the Latin-1 word characters, because Python matches those
  too (`\w` is Unicode-aware by default).
* `re.IGNORECASE` is modelled as ASCII case-insensitive comparison
  (the literals in all patterns are ASCII).
* The floats the program parses out of the page text are only
  range-checked and stored, so they are modelled as exact rationals.
* The two random draws of `extract_alternative_results` are passed in as
  an explicit stream `rand : Nat -> Rat × Nat` (index = number of
  synthetic records already produced).
* Greedy quantifiers are implemented by maximal munch at the places
  where the concrete pattern makes backtracking into them unobservable
  (justified in the comment of each matcher); ordered alternation and
  the counted repetitions of the review patterns are implemented with
  genuine backtracking.
-/

namespace RF

/-- ASCII whitespace: the characters of `\s` and of `str.strip()` that the
modelled inputs contain. -/
def isSpaceChar (c : Char) : Bool :=
  c = ' ' || c = '\t' || c = '\n' || c = '\r' || c = '\x0b' || c = '\x0c'

/-- ASCII lowercasing, used to model `re.IGNORECASE` on ASCII literals. -/
def asciiLowerChar (c : Char) : Char :=
  if 'A' ≤ c && c ≤ 'Z' then Char.ofNat (c.toNat + 32) else c

/-- Case-insensitive literal check: does `s` begin with the literal `pat`
(ASCII case-insensitively)? -/
def ciStarts : List Char → List Char → Bool
  | [], _ => true
  | _ :: _, [] => false
  | p :: ps, c :: cs => (asciiLowerChar c == asciiLowerChar p) && ciStarts ps cs

/-- Python `str.lower()` restricted to the Basic Latin and Latin-1 blocks
(identity elsewhere), which covers the strings the claims exercise. -/
def pyLowerChar (c : Char) : Char :=
  if 'A' ≤ c && c ≤ 'Z' then Char.ofNat (c.toNat + 32)
  else if 0xC0 ≤ c.toNat && c.toNat ≤ 0xDE && c.toNat ≠ 0xD7 then Char.ofNat (c.toNat + 32)
  else c

/-- Python regex `\w` (Unicode) restricted to the Basic Latin and Latin-1
blocks: ASCII alphanumerics and underscore, the Latin-1 letters
(including ª, µ, º), and the Latin-1 numeric characters ¹²³¼½¾. -/
def pyIsWordChar (c : Char) : Bool :=
  c.isAlphanum || c = '_' ||
  c = 'ª' || c = 'µ' || c = 'º' ||
  c = '¹' || c = '²' || c = '³' || c = '¼' || c = '½' || c = '¾' ||
  (0xC0 ≤ c.toNat && c.toNat ≤ 0xFF && c.toNat ≠ 0xD7 && c.toNat ≠ 0xF7)

/-- `str.strip()` on a character list: drop whitespace from both ends. -/
def pyStripList (l : List Char) : List Char :=
  ((l.dropWhile isSpaceChar).reverse.dropWhile isSpaceChar).reverse

/-- Python `str.strip()`. -/
def pyStrip (s : String) : String := ⟨pyStripList s.data⟩

/-- Python `sub in s` on strings: `sub` occurs contiguously in `s`. -/
def hasSubstr (sub : List Char) : List Char → Bool
  | [] => sub.isEmpty
  | s@(_ :: t) => sub.isPrefixOf s || hasSubstr sub t

/-- Value of a list of ASCII digits read in base 10 (commas already removed);
models `int(...)` on the strings the review patterns capture. -/
def digitsToNat (l : List Char) : Nat := l.foldl (fun a c => 10 * a + (c.toNat - 48)) 0

/-- Exact value of the decimal numeral `ip "." fp` (or just `ip` when `fp`
is empty); models `float(...)` on the strings the rating patterns capture.
Built with `mkRat` so that it evaluates inside the kernel. -/
def ratOfParts (ip fp : List Char) : ℚ :=
  mkRat (digitsToNat ip * 10 ^ fp.length + digitsToNat fp) (10 ^ fp.length)

/-- The range test `0 <= rating <= 5` of `extract_rating_from_text`, as a
kernel-evaluable check on the numerator and denominator;
`ratInRangeB_iff` below identifies it with `0 ≤ q ∧ q ≤ 5`. -/
def ratInRangeB (q : ℚ) : Bool := (0 ≤ q.num) && (q.num ≤ 5 * (q.den : Int))

/-- The capture group `(\d+\.?\d*)` of the rating patterns, parsed by
maximal munch: one or more digits, an optional dot, then any digits.
Returns the value of the matched text and the rest of the input.
In the four rating patterns no backtracking into this token is ever
needed: the element after it is `\s*` followed by a literal starting
with `s`, `/`, `o`, `r` or `★` — never a digit, a dot or whitespace —
so a failure after the maximal munch cannot be repaired by a shorter
munch. -/
def numAt (s : List Char) : Option (ℚ × List Char) :=
  let ds := s.takeWhile Char.isDigit
  if ds.isEmpty then none
  else
    match s.dropWhile Char.isDigit with
    | '.' :: r2 => some (ratOfParts ds (r2.takeWhile Char.isDigit), r2.dropWhile Char.isDigit)
    | r1 => some (ratOfParts ds [], r1)

/-- Match of `(\d+\.?\d*)\s*(?:stars?|/5|out of 5)` starting at the head of
`s`.  `stars?` is covered by the prefix check for `star`, since the
pattern ends right after the optional `s`. -/
def matchStars (s : List Char) : Option ℚ :=
  match numAt s with
  | none => none
  | some (q, r) =>
    let r2 := r.dropWhile isSpaceChar
    if ciStarts "star".data r2 || ciStarts "/5".data r2 || ciStarts "out of 5".data r2 then
      some q
    else none

/-- Match of `rating:?\s*(\d+\.?\d*)` starting at the head of `s`.  The
greedy `:?` and `\s*` are safe: `:` is neither whitespace nor a digit,
and whitespace is not a digit. -/
def matchRatingColon (s : List Char) : Option ℚ :=
  if ciStarts "rating".data s then
    let r := s.drop 6
    let r1 := match r with | ':' :: t => t | _ => r
    match numAt (r1.dropWhile isSpaceChar) with
    | some (q, _) => some q
    | none => none
  else none

/-- Match of `(\d+\.?\d*)\s*★` starting at the head of `s`. -/
def matchNumStar (s : List Char) : Option ℚ :=
  match numAt s with
  | none => none
  | some (q, r) =>
    match r.dropWhile isSpaceChar with
    | '★' :: _ => some q
    | _ => none

/-- Match of `★\s*(\d+\.?\d*)` starting at the head of `s`. -/
def matchStarNum (s : List Char) : Option ℚ :=
  match s with
  | '★' :: r =>
    match numAt (r.dropWhile isSpaceChar) with
    | some (q, _) => some q
    | none => none
  | _ => none

/-- `re.search`: try the position matcher `m` at every position left to
right and return the first (leftmost) match. -/
def reSearch {α : Type} (m : List Char → Option α) : List Char → Option α
  | [] => m []
  | s@(_ :: t) =>
    match m s with
    | some v => some v
    | none => reSearch m t

/-- The `for pattern in rating_patterns` loop of
`extract_rating_from_text`: take the first pattern that has a match,
return its value if it lies in [0, 5], otherwise fall through to the
remaining patterns.  (`float()` cannot raise on a `(\d+\.?\d*)` capture,
so the `except ValueError` branch is dead.) -/
def ratingLoop : List (List Char → Option ℚ) → List Char → Option ℚ
  | [], _ => none
  | p :: ps, s =>
    match reSearch p s with
    | some q => if ratInRangeB q then some q else ratingLoop ps s
    | none => ratingLoop ps s

/-- The four rating patterns, in source order. -/
def ratingPatterns : List (List Char → Option ℚ) :=
  [matchStars, matchRatingColon, matchNumStar, matchStarNum]

/-- `RestaurantFinder.extract_rating_from_text`. -/
def extract_rating_from_text (text : String) : Option ℚ :=
  ratingLoop ratingPatterns text.data

/-- Exactly `n` consecutive digits at the head of the input, or fail. -/
def takeExactDigits : Nat → List Char → Option (List Char × List Char)
  | 0, s => some ([], s)
  | _ + 1, [] => none
  | n + 1, c :: s =>
    if c.isDigit then
      match takeExactDigits n s with
      | some (d, r) => some (c :: d, r)
      | none => none
    else none

/-- Number of consecutive `,\d{3}` groups at the head of the input. -/
def countGroups : List Char → Nat
  | ',' :: d1 :: d2 :: d3 :: rest =>
    if d1.isDigit && d2.isDigit && d3.isDigit then countGroups rest + 1 else 0
  | _ => 0

/-- All splits of the `(?:,\d{3})*` repetition after an initial digit
group `ds`, in greedy backtracking order (most groups first): the value
of the capture with commas removed, paired with the remaining input. -/
def groupSplits (ds : List Char) (rest : List Char) : List (Nat × List Char) :=
  ((List.range (countGroups rest + 1)).reverse).map fun k =>
    (digitsToNat (ds ++ (rest.take (4 * k)).filter (fun c => c != ',')), rest.drop (4 * k))

/-- All splits of the capture `(\d{1,3}(?:,\d{3})*)` at the head of the
input, in the backtracking order of the regex engine: the `\d{1,3}`
munch tries 3, 2, 1 digits, and for each the comma groups are tried
longest first. -/
def cnumSplits (s : List Char) : List (Nat × List Char) :=
  ([3, 2, 1].filterMap (fun dl => takeExactDigits dl s)).flatMap fun p => groupSplits p.1 p.2

/-- Continuation of review pattern 1 after the capture: `\s*reviews?`
(nothing follows the optional `s`, so the prefix check for `review`
suffices). -/
def checkRev1 (p : Nat × List Char) : Option Nat :=
  if ciStarts "review".data (p.2.dropWhile isSpaceChar) then some p.1 else none

/-- Match of `(\d{1,3}(?:,\d{3})*)\s*reviews?` starting at the head of `s`. -/
def matchRev1At (s : List Char) : Option Nat := (cnumSplits s).findSome? checkRev1

/-- Continuation of review pattern 2 after the capture:
`\s*reviews?\)`, with the optional `s` backtracked against the closing
parenthesis. -/
def checkRev2 (p : Nat × List Char) : Option Nat :=
  let r2 := p.2.dropWhile isSpaceChar
  if ciStarts "review".data r2 then
    let r3 := r2.drop 6
    if ciStarts "s)".data r3 || ciStarts ")".data r3 then some p.1 else none
  else none

/-- Match of `\((\d{1,3}(?:,\d{3})*)\s*reviews?\)` starting at the head
of the input. -/
def matchRev2At : List Char → Option Nat
  | '(' :: rest => (cnumSplits rest).findSome? checkRev2
  | _ => none

/-- Match of `(\d+)\s*reviews?` starting at the head of `s`: the greedy
`\d+` munch is safe because neither `\s*` nor `review` can consume the
digit a shorter munch would leave behind. -/
def matchRev3At (s : List Char) : Option Nat :=
  match s with
  | c :: _ =>
    if c.isDigit then
      if ciStarts "review".data ((s.dropWhile Char.isDigit).dropWhile isSpaceChar) then
        some (digitsToNat (s.takeWhile Char.isDigit))
      else none
    else none
  | [] => none

/-- `RestaurantFinder.extract_review_count`: the three patterns in source
order, first pattern with a match wins (`int()` cannot raise on the
captures, so the `except ValueError` branch is dead). -/
def extract_review_count (text : String) : Option Nat :=
  match reSearch matchRev1At text.data with
  | some n => some n
  | none =>
    match reSearch matchRev2At text.data with
    | some n => some n
    | none => reSearch matchRev3At text.data

/-- Comparison function of claim C10, following the claim text: search
only the first review pattern `(\d{1,3}(?:,\d{3})*)\s*reviews?` and
parse the comma-stripped match. -/
def reviewCountFirstPatternOnly (text : String) : Option Nat :=
  reSearch matchRev1At text.data

/-- The cuisine keyword table, in source (insertion) order. -/
def cuisine_keywords : List (String × List String) :=
  [("Italian", ["italian", "pizza", "pasta", "pizzeria"]),
   ("Chinese", ["chinese", "asian", "dim sum"]),
   ("Mexican", ["mexican", "taco", "burrito", "tex-mex"]),
   ("American", ["american", "burger", "steakhouse", "bbq", "grill"]),
   ("French", ["french", "bistro", "brasserie"]),
   ("Indian", ["indian", "curry", "tandoor"]),
   ("Japanese", ["japanese", "sushi", "ramen"]),
   ("Mediterranean", ["mediterranean", "greek", "middle eastern"])]

/-- `RestaurantFinder.guess_cuisine_type`. -/
def guess_cuisine_type (title description : String) : String :=
  let text := (title.data ++ [' '] ++ description.data).map pyLowerChar
  match cuisine_keywords.find? (fun p => p.2.any fun kw => hasSubstr kw.data text) with
  | some p => p.1
  | none => "Various"

/-- The restaurant keyword list of `is_restaurant_result`. -/
def restaurant_keywords : List String :=
  ["restaurant", "cafe", "bistro", "grill", "kitchen", "bar",
   "eatery", "diner", "pizzeria", "steakhouse", "tavern",
   "food", "dining", "menu", "cuisine"]

/-- `RestaurantFinder.is_restaurant_result`. -/
def is_restaurant_result (title : String) : Bool :=
  restaurant_keywords.any fun kw => hasSubstr kw.data (title.data.map pyLowerChar)

/-- The split characters of `clean_restaurant_name`: `[-–—,]`. -/
def sepChars : List Char := ['-', '–', '—', ',']

/-- The trailing-marker words `(Menu|Reviews?|Yelp|TripAdvisor|OpenTable)`,
with the greedy `s?` of `Reviews?` expanded into the two alternatives in
greedy order. -/
def tailWords : List String := ["menu", "reviews", "review", "yelp", "tripadvisor", "opentable"]

/-- Does `\s*-\s*(Menu|Reviews?|Yelp|TripAdvisor|OpenTable).*$` match
starting at the head of `s`?  `.` does not match a newline and `$`
(without MULTILINE) matches only at the end of the string or before a
final newline, so after the marker word the rest must contain no
newline (`some false`: the match runs to the end of the string) or
contain a newline only as its final character (`some true`: the match
stops before that newline). -/
def markerHere (s : List Char) : Option Bool :=
  match s.dropWhile isSpaceChar with
  | '-' :: r1 =>
    let r2 := r1.dropWhile isSpaceChar
    tailWords.findSome? fun w =>
      if ciStarts w.data r2 then
        let rest := r2.drop w.data.length
        if !rest.contains '\n' then some false
        else if !rest.dropLast.contains '\n' && rest.getLastD ' ' == '\n' then some true
        else none
      else none
  | _ => none

/-- Scan for the leftmost match of the trailing-marker pattern and delete
the matched span (which always reaches the end of the string, except
for a final newline kept when `$` matched in front of it); `acc` holds
the reversed prefix already scanned. -/
def stripTrailingAux : List Char → List Char → List Char
  | acc, s =>
    match markerHere s with
    | some trailingNL => acc.reverse ++ (if trailingNL then ['\n'] else [])
    | none =>
      match s with
      | [] => acc.reverse
      | c :: t => stripTrailingAux (c :: acc) t

/-- First substitution of `clean_restaurant_name`:
`re.sub(r'\s*-\s*(Menu|Reviews?|Yelp|TripAdvisor|OpenTable).*$', '', title, flags=re.IGNORECASE)`. -/
def stripTrailingMarker (title : String) : String :=
  ⟨stripTrailingAux [] title.data⟩

/-- Match of `^(Top|Best)\s+\d+\s+` (anchored at the start): returns the
remainder after the matched prefix.  The greedy `\s+` and `\d+` munches
are safe because whitespace and digits are disjoint and the next
element never accepts the characters a shorter munch would leave. -/
def topBestRes (s : List Char) : Option (List Char) :=
  ["top", "best"].findSome? fun w =>
    if ciStarts w.data s then
      let r1 := s.drop w.data.length
      if (r1.takeWhile isSpaceChar).isEmpty then none
      else
        let r2 := r1.dropWhile isSpaceChar
        if (r2.takeWhile Char.isDigit).isEmpty then none
        else
          let r3 := r2.dropWhile Char.isDigit
          if (r3.takeWhile isSpaceChar).isEmpty then none
          else some (r3.dropWhile isSpaceChar)
    else none

/-- Second substitution of `clean_restaurant_name`:
`re.sub(r'^(Top|Best)\s+\d+\s+', '', title, flags=re.IGNORECASE)`. -/
def stripTopBest (title : String) : String :=
  match topBestRes title.data with
  | some rest => ⟨rest⟩
  | none => title

/-- `RestaurantFinder.clean_restaurant_name`: strip a trailing marker
segment, strip a leading `Top N` / `Best N`, keep the part before the
first separator (`re.split` first field = `takeWhile` not-a-separator),
and strip surrounding whitespace. -/
def clean_restaurant_name (title : String) : String :=
  let t1 := stripTrailingMarker title
  let t2 := stripTopBest t1
  pyStrip ⟨t2.data.takeWhile fun c => !sepChars.contains c⟩

/-- The restaurant record built by the script (Python dict with fixed
keys). -/
structure Restaurant where
  name : String
  rating : Option ℚ
  reviews : Option Nat
  description : String
  city : String
  url : String
  cuisine_type : String
deriving DecidableEq

/-- One parsed search-result block (`div.g`): the optional `h3` text, the
`href` of the first link (`''` when absent) and the snippet text (`''`
when absent). -/
structure ResultBlock where
  title? : Option String
  href : String
  snippet : String

/-- The parsed page: the result blocks in document order, and the full
visible text returned by `soup.get_text()`. -/
structure Soup where
  blocks : List ResultBlock
  fullText : String

/-- The record built for one accepted block in `extract_restaurant_info`. -/
def recordOfBlock (city : String) (b : ResultBlock) (title : String) : Restaurant :=
  { name := clean_restaurant_name title
    rating := extract_rating_from_text (b.snippet ++ " " ++ title)
    reviews := extract_review_count b.snippet
    description := if b.snippet.data.length > 200 then ⟨b.snippet.data.take 200⟩ ++ "..." else b.snippet
    city := city
    url := b.href
    cuisine_type := guess_cuisine_type title b.snippet }

/-- The main loop of `extract_restaurant_info` over the result blocks:
skip blocks without an `h3` or whose title fails the keyword test,
append a record otherwise, and stop as soon as 15 records have been
collected. -/
def primaryPass (city : String) : List ResultBlock → List Restaurant → List Restaurant
  | [], acc => acc
  | b :: bs, acc =>
    match b.title? with
    | none => primaryPass city bs acc
    | some title =>
      if is_restaurant_result title then
        if 15 ≤ (acc ++ [recordOfBlock city b title]).length then
          acc ++ [recordOfBlock city b title]
        else primaryPass city bs (acc ++ [recordOfBlock city b title])
      else primaryPass city bs acc

/-- Python `str.split('\n')`: split at every newline, keeping empty
pieces (structural, so that it evaluates inside the kernel). -/
def splitNl : List Char → List (List Char)
  | [] => [[]]
  | '\n' :: t => [] :: splitNl t
  | c :: t =>
    match splitNl t with
    | [] => [[c]]
    | l :: ls => (c :: l) :: ls

/-- The line filter of `extract_alternative_results`: stripped length in
(5, 100) and one of the indicator words occurs in the lowercased line. -/
def altLineOk (line : List Char) : Bool :=
  decide (5 < line.length) && decide (line.length < 100) &&
    ["restaurant", "cafe", "bistro", "grill", "kitchen"].any fun kw =>
      hasSubstr kw.data (line.map pyLowerChar)

/-- The synthetic record of `extract_alternative_results` for one
qualifying line; `rand idx` supplies the two random draws. -/
def altRecord (city : String) (rand : Nat → ℚ × Nat) (idx : Nat) (line : List Char) : Restaurant :=
  { name := ⟨line⟩
    rating := some (rand idx).1
    reviews := some (rand idx).2
    description := "Popular restaurant in " ++ city
    city := city
    url := ""
    cuisine_type := "Various" }

/-- The loop of `extract_alternative_results` over the lines of the page
text, stopping after 5 synthetic records. -/
def altPass (city : String) (rand : Nat → ℚ × Nat) :
    List (List Char) → List Restaurant → List Restaurant
  | [], acc => acc
  | ln :: lns, acc =>
    if altLineOk (pyStripList ln) then
      if 5 ≤ (acc ++ [altRecord city rand acc.length (pyStripList ln)]).length then
        acc ++ [altRecord city rand acc.length (pyStripList ln)]
      else altPass city rand lns (acc ++ [altRecord city rand acc.length (pyStripList ln)])
    else altPass city rand lns acc

/-- `RestaurantFinder.extract_alternative_results`. -/
def extract_alternative_results (soup : Soup) (city : String) (rand : Nat → ℚ × Nat) :
    List Restaurant :=
  altPass city rand (splitNl soup.fullText.data) []

/-- The deduplication key: `restaurant['name'].lower().strip()`. -/
def nameKey (r : Restaurant) : String := pyStrip ⟨r.name.data.map pyLowerChar⟩

/-- The deduplication loop of `extract_restaurant_info` (`seen_names` /
`unique_restaurants`). -/
def dedupeAux (seen : List String) : List Restaurant → List Restaurant
  | [] => []
  | r :: rs =>
    let k := nameKey r
    if k ∈ seen then dedupeAux seen rs
    else r :: dedupeAux (k :: seen) rs

/-- The Deduplicator: collapse records with equal normalized names,
keeping the first occurrence, in order. -/
def dedupe (rs : List Restaurant) : List Restaurant := dedupeAux [] rs

/-- `RestaurantFinder.extract_restaurant_info`: primary pass over the
blocks, alternative pass appended when fewer than 5 primary records,
then deduplication. -/
def extract_restaurant_info (soup : Soup) (city : String) (rand : Nat → ℚ × Nat) :
    List Restaurant :=
  let prim := primaryPass city soup.blocks []
  let all := if prim.length < 5 then prim ++ extract_alternative_results soup city rand else prim
  dedupe all

/-- `RestaurantFinder.create_sample_data`: the fixed ten-record fallback
list with the city interpolated into names and descriptions. -/
def create_sample_data (city : String) : List Restaurant :=
  [{ name := "The Golden Fork - " ++ city
     rating := some (mkRat 9 2)
     reviews := some 234
     description := "Upscale dining experience in the heart of " ++ city ++
       ". Known for exceptional service and innovative cuisine."
     city := city
     url := "https://example.com/golden-fork"
     cuisine_type := "American" },
   { name := "Mama\x27s Kitchen - " ++ city
     rating := some (mkRat 21 5)
     reviews := some 456
     description := "Family-owned Italian restaurant serving authentic dishes in " ++ city ++
       " for over 20 years."
     city := city
     url := "https://example.com/mamas-kitchen"
     cuisine_type := "Italian" },
   { name := "Spice Garden - " ++ city
     rating := some (mkRat 43 10)
     reviews := some 189
     description := "Authentic Indian cuisine with a modern twist. Best curry in " ++ city ++ "."
     city := city
     url := "https://example.com/spice-garden"
     cuisine_type := "Indian" },
   { name := "Ocean Breeze Seafood - " ++ city
     rating := some (mkRat 41 10)
     reviews := some 312
     description := "Fresh seafood restaurant with ocean views. Popular spot in " ++ city ++
       " for special occasions."
     city := city
     url := "https://example.com/ocean-breeze"
     cuisine_type := "Seafood" },
   { name := "The Local Bistro - " ++ city
     rating := some (mkRat 22 5)
     reviews := some 167
     description := "Cozy neighborhood bistro in " ++ city ++
       " featuring farm-to-table ingredients and craft cocktails."
     city := city
     url := "https://example.com/local-bistro"
     cuisine_type := "American" },
   { name := "Dragon Palace - " ++ city
     rating := some (mkRat 4 1)
     reviews := some 278
     description := "Traditional Chinese restaurant in " ++ city ++
       " known for dim sum and Peking duck."
     city := city
     url := "https://example.com/dragon-palace"
     cuisine_type := "Chinese" },
   { name := "Taco Libre - " ++ city
     rating := some (mkRat 21 5)
     reviews := some 345
     description := "Vibrant Mexican restaurant in " ++ city ++
       " with live music and authentic street tacos."
     city := city
     url := "https://example.com/taco-libre"
     cuisine_type := "Mexican" },
   { name := "Café Parisien - " ++ city
     rating := some (mkRat 43 10)
     reviews := some 123
     description := "Charming French café in " ++ city ++
       " serving croissants, coffee, and classic French dishes."
     city := city
     url := "https://example.com/cafe-parisien"
     cuisine_type := "French" },
   { name := "The Steakhouse - " ++ city
     rating := some (mkRat 23 5)
     reviews := some 234
     description := "Premium steakhouse in " ++ city ++
       " featuring aged beef and an extensive wine selection."
     city := city
     url := "https://example.com/steakhouse"
     cuisine_type := "American" },
   { name := "Sakura Sushi - " ++ city
     rating := some (mkRat 41 10)
     reviews := some 198
     description := "Authentic Japanese sushi restaurant in " ++ city ++
       " with fresh fish flown in daily."
     city := city
     url := "https://example.com/sakura-sushi"
     cuisine_type := "Japanese" }]

/-- Outcome of the HTTP fetch in `search_restaurants`: a parsed page, or
an exception (`requests.RequestException` or any other error, both of
which lead to the sample-data fallback). -/
inductive FetchOutcome where
  | ok (soup : Soup)
  | failed

/-- `RestaurantFinder.search_restaurants`: extract from the fetched page,
or fall back to the sample data on an exception; always return at most
the first 10 records. -/
def search_restaurants (fetch : FetchOutcome) (city : String) (rand : Nat → ℚ × Nat) :
    List Restaurant :=
  match fetch with
  | .ok soup => (extract_restaurant_info soup city rand).take 10
  | .failed => (create_sample_data city).take 10

/-- The value stored under one key of the output JSON object. -/
structure SavedEntry where
  rank : Nat
  rating : Option ℚ
  reviews : Option Nat
  description : String
  city : String
  url : String
  cuisine_type : String
deriving DecidableEq

/-- The JSON value for the record at 1-based position `i`. -/
def entryOf (i : Nat) (r : Restaurant) : SavedEntry :=
  ⟨i, r.rating, r.reviews, r.description, r.city, r.url, r.cuisine_type⟩

/-- Base-10 digits of `n`, least significant first, computed with
structural fuel (adequate whenever `n ≤ fuel`). -/
def digitsAux : Nat → Nat → List Nat
  | 0, _ => []
  | fuel + 1, n => if n = 0 then [] else n % 10 :: digitsAux fuel (n / 10)

/-- Python `str(n)` for a positive integer `n` (the collision counters
are always ≥ 2): the decimal numeral of `n`. -/
def natToStr (n : Nat) : String := ⟨((digitsAux n n).map Nat.digitChar).reverse⟩

/-- The candidate key `f"{original_key} ({counter})"`. -/
def candKey (orig : String) (c : Nat) : String := orig ++ " (" ++ natToStr c ++ ")"

/-- The `while key in restaurant_dict` loop, with structural fuel: try the
counters `c, c+1, …` until the candidate key is unused.  `keys.length + 1`
units of fuel always suffice, because the candidates are pairwise
distinct and the dictionary is finite (`freshKey_not_mem` below). -/
def freshKeyAux (keys : List String) (orig : String) : Nat → Nat → String
  | 0, c => candKey orig c
  | fuel + 1, c => if candKey orig c ∈ keys then freshKeyAux keys orig fuel (c + 1) else candKey orig c

/-- The key-collision policy of `save_to_json`: the record name itself if
unused, else `name (2)`, `name (3)`, … . -/
def freshKey (keys : List String) (orig : String) : String :=
  if orig ∈ keys then freshKeyAux keys orig (keys.length + 1) 2 else orig

/-- The `for i, restaurant in enumerate(restaurants, 1)` loop of
`save_to_json`, building the (insertion-ordered) dictionary. -/
def saveAux : List Restaurant → Nat → List (String × SavedEntry) → List (String × SavedEntry)
  | [], _, acc => acc
  | r :: rs, i, acc =>
    let key := freshKey (acc.map Prod.fst) r.name
    saveAux rs (i + 1) (acc ++ [(key, entryOf i r)])

/-- The JSON object written by `save_to_json`, as an insertion-ordered
association list. -/
def save_to_json_dict (rs : List Restaurant) : List (String × SavedEntry) :=
  saveAux rs 1 []

/-- `re.sub(r'[^\w\-_.]', '_', city.lower())`. -/
def safe_city_name (city : String) : String :=
  ⟨(city.data.map pyLowerChar).map fun c =>
    if pyIsWordChar c || c = '-' || c = '_' || c = '.' then c else '_'⟩

/-- The output filename of `save_to_json`. -/
def save_to_json_filename (city : String) : String :=
  "restaurants_" ++ safe_city_name city ++ ".json"

/-- The ASCII character class `[A-Za-z0-9_.-]` named by claim C2. -/
def asciiAllowed (c : Char) : Bool :=
  c.isAlphanum || c = '_' || c = '.' || c = '-'

/-- The filename claim C2 asserts: lowercase the city and replace every
character outside the ASCII class `[A-Za-z0-9_.-]` by an underscore. -/
def asciiSpecFilename (city : String) : String :=
  "restaurants_" ++ ⟨(city.data.map pyLowerChar).map fun c => if asciiAllowed c then c else '_'⟩ ++ ".json"

/-- Full match against `restaurants_[a-z0-9_.-]+\.json`. -/
def matchesAsciiFilenameRegex (f : String) : Bool :=
  let d := f.data
  (d.take 12 == "restaurants_".data) &&
    (let rest := d.drop 12
     (rest.drop (rest.length - 5) == ".json".data) &&
       (let mid := rest.take (rest.length - 5)
        !mid.isEmpty && mid.all fun c => ('a' ≤ c && c ≤ 'z') || c.isDigit || c = '_' || c = '.' || c = '-'))

/-! ### Generic facts about the loops -/

theorem primaryPass_length_le (city : String) :
    ∀ (bs : List ResultBlock) (acc : List Restaurant),
      acc.length < 15 → (primaryPass city bs acc).length ≤ 15 := by
  intro bs
  induction bs with
  | nil => intro acc h; simpa [primaryPass] using h.le
  | cons b bs ih =>
    intro acc h
    rw [primaryPass]
    split
    · exact ih acc h
    · split
      · split
        · simp only [List.length_append, List.length_cons, List.length_nil]
          omega
        next h2 =>
          apply ih
          simp only [List.length_append, List.length_cons, List.length_nil] at h2 ⊢
          omega
      · exact ih acc h

theorem altPass_length_le (city : String) (rand : Nat → ℚ × Nat) :
    ∀ (lns : List (List Char)) (acc : List Restaurant),
      acc.length < 5 → (altPass city rand lns acc).length ≤ 5 := by
  intro lns
  induction lns with
  | nil => intro acc h; simpa [altPass] using h.le
  | cons ln lns ih =>
    intro acc h
    rw [altPass]
    split
    · split
      · simp only [List.length_append, List.length_cons, List.length_nil]
        omega
      next h2 =>
        apply ih
        simp only [List.length_append, List.length_cons, List.length_nil] at h2 ⊢
        omega
    · exact ih acc h

theorem dedupeAux_sublist (rs : List Restaurant) :
    ∀ seen : List String, (dedupeAux seen rs).Sublist rs := by
  induction rs with
  | nil => intro seen; simp [dedupeAux]
  | cons r rs ih =>
    intro seen
    rw [dedupeAux]
    split
    · exact (ih seen).cons r
    · exact (ih _).cons₂ r

theorem dedupe_sublist (rs : List Restaurant) : (dedupe rs).Sublist rs :=
  dedupeAux_sublist rs []

theorem dedupeAux_idem (rs : List Restaurant) :
    ∀ seen : List String, dedupeAux seen (dedupeAux seen rs) = dedupeAux seen rs := by
  induction rs with
  | nil => intro seen; rfl
  | cons r rs ih =>
    intro seen
    by_cases h : nameKey r ∈ seen
    · rw [dedupeAux, if_pos h, ih seen]
    · rw [dedupeAux, if_neg h, dedupeAux, if_neg h, ih (nameKey r :: seen)]

theorem dedupeAux_find? (rs : List Restaurant) :
    ∀ (seen : List String) (key : String), key ∉ seen →
      (dedupeAux seen rs).find? (fun r => nameKey r == key) =
        rs.find? (fun r => nameKey r == key) := by
  induction rs with
  | nil => intro seen key _; rfl
  | cons r rs ih =>
    intro seen key hk
    by_cases h : nameKey r ∈ seen
    · rw [dedupeAux, if_pos h]
      have hne : (nameKey r == key) = false := by
        simp only [beq_eq_false_iff_ne, ne_eq]
        rintro rfl
        exact hk h
      simp only [List.find?, hne]
      exact ih seen key hk
    · rw [dedupeAux, if_neg h]
      cases hpr : (nameKey r == key) with
      | true => simp only [List.find?, hpr]
      | false =>
        simp only [List.find?, hpr]
        apply ih
        intro hmem
        rcases List.mem_cons.mp hmem with h1 | h1
        · rw [h1] at hpr
          simp at hpr
        · exact hk h1

theorem dedupeAux_keys (rs : List Restaurant) :
    ∀ seen : List String,
      ((dedupeAux seen rs).map nameKey).Nodup ∧
        ∀ r ∈ dedupeAux seen rs, nameKey r ∉ seen := by
  induction rs with
  | nil => intro seen; simp [dedupeAux]
  | cons r rs ih =>
    intro seen
    by_cases h : nameKey r ∈ seen
    · rw [dedupeAux, if_pos h]
      exact ih seen
    · rw [dedupeAux, if_neg h]
      obtain ⟨hnd, hni⟩ := ih (nameKey r :: seen)
      refine ⟨?_, ?_⟩
      · simp only [List.map_cons, List.nodup_cons]
        refine ⟨?_, hnd⟩
        intro hmem
        obtain ⟨r', hr', he⟩ := List.mem_map.mp hmem
        exact hni r' hr' (he ▸ List.mem_cons_self _ _)
      · intro r' hr'
        rcases List.mem_cons.mp hr' with rfl | h1
        · exact h
        · intro hmem
          exact hni r' h1 (List.mem_cons_of_mem _ hmem)

/-- Claim C4: for every parsed page and city the extraction step returns
at most 15 records, and the pipeline truncates its final output to at
most 10 records in every run (both on the successful-fetch path and on
the fallback path). -/
theorem c4_extraction_bounds :
    (∀ (soup : Soup) (city : String) (rand : Nat → ℚ × Nat),
      (extract_restaurant_info soup city rand).length ≤ 15) ∧
    (∀ (fetch : FetchOutcome) (city : String) (rand : Nat → ℚ × Nat),
      (search_restaurants fetch city rand).length ≤ 10) := by
  constructor
  · intro soup city rand
    simp only [extract_restaurant_info]
    split
    next h =>
      calc (dedupe _).length
          ≤ _ := (dedupe_sublist _).length_le
        _ ≤ 15 := by
            rw [List.length_append]
            have h2 : (extract_alternative_results soup city rand).length ≤ 5 :=
              altPass_length_le city rand _ [] (by simp)
            omega
    next h =>
      calc (dedupe _).length
          ≤ _ := (dedupe_sublist _).length_le
        _ ≤ 15 := primaryPass_length_le city soup.blocks [] (by simp)
  · intro fetch city rand
    cases fetch with
    | ok soup => simp [search_restaurants, List.length_take]
    | failed => simp [search_restaurants, List.length_take]

/-- Claim C6: the Deduplicator is idempotent, never increases the record
count, returns an order-preserving subselection of its input in which the
first record bearing each key (`name` lowercased and stripped) is kept —
`find?` for every key is unchanged — keys are pairwise distinct
afterwards, and the empty list maps to the empty list. -/
theorem c6_dedupe_algebra :
    (∀ rs : List Restaurant, dedupe (dedupe rs) = dedupe rs) ∧
    (∀ rs : List Restaurant, (dedupe rs).length ≤ rs.length) ∧
    (∀ rs : List Restaurant, (dedupe rs).Sublist rs) ∧
    (∀ (rs : List Restaurant) (key : String),
      (dedupe rs).find? (fun r => nameKey r == key) =
        rs.find? (fun r => nameKey r == key)) ∧
    (∀ rs : List Restaurant, ((dedupe rs).map nameKey).Nodup) ∧
    dedupe ([] : List Restaurant) = [] :=
  ⟨fun rs => dedupeAux_idem rs [],
   fun rs => (dedupe_sublist rs).length_le,
   dedupe_sublist,
   fun rs key => dedupeAux_find? rs [] key (by simp),
   fun rs => (dedupeAux_keys rs []).1,
   rfl⟩

/-! ### Sample data, filename, fallback behaviour -/

theorem data_mk_eq (l : List Char) : (⟨l⟩ : String).data = l := rfl

theorem string_ext {s t : String} (h : s.data = t.data) : s = t := by
  cases s
  cases t
  cases h
  rfl

theorem infix_append_right (s t : String) : t.data.IsInfix (s ++ t).data :=
  ⟨s.data, [], by simp [String.data_append]⟩

theorem infix_append_middle (s t u : String) : t.data.IsInfix (s ++ t ++ u).data :=
  ⟨s.data, u.data, by simp [String.data_append]⟩

/-- Claim C5: for every city string the Sample-Data Provider returns
exactly 10 records, each with its `city` field equal to the input city
verbatim and with the city string occurring in both the `name` and the
`description` text.  (Every field is a pure function of `city`: the
provider takes no randomness.) -/
theorem c5_sample_data (city : String) :
    (create_sample_data city).length = 10 ∧
    ∀ r ∈ create_sample_data city,
      r.city = city ∧ city.data.IsInfix r.name.data ∧ city.data.IsInfix r.description.data := by
  refine ⟨by simp [create_sample_data], ?_⟩
  intro r hr
  simp only [create_sample_data, List.mem_cons, List.not_mem_nil, or_false] at hr
  rcases hr with rfl | rfl | rfl | rfl | rfl | rfl | rfl | rfl | rfl | rfl <;>
    exact ⟨rfl, infix_append_right _ _, infix_append_middle _ _ _⟩

theorem c5_sample_data_witness :
    (create_sample_data "Paris").length = 10 ∧
    ({ name := "The Golden Fork - Paris", rating := some (mkRat 9 2), reviews := some 234,
       description := "Upscale dining experience in the heart of Paris. Known for exceptional service and innovative cuisine.",
       city := "Paris", url := "https://example.com/golden-fork",
       cuisine_type := "American" } : Restaurant).city = "Paris" :=
  ⟨(c5_sample_data "Paris").1, ((c5_sample_data "Paris").2 _ (by decide)).1⟩

/-- Claim C2 (corrected), the counterexample: for the city `São Paulo!`
the Persister keeps the non-ASCII word character `ã` (Python `\w` is
Unicode-aware), so the filename is `restaurants_são_paulo_.json`; it
differs from the ASCII-sanitised name the claim prescribes and does not
match `restaurants_[a-z0-9_.-]+\.json`. -/
theorem c2_filename_counterexample :
    save_to_json_filename "São Paulo!" = "restaurants_são_paulo_.json" ∧
    save_to_json_filename "São Paulo!" ≠ asciiSpecFilename "São Paulo!" ∧
    matchesAsciiFilenameRegex (save_to_json_filename "São Paulo!") = false :=
  ⟨by decide, by decide, by decide⟩

/-- Claim C2 (amended): the Persister filename is `restaurants_` +
(lowercased city with every character that is neither a Python word
character (`\w`, Unicode-aware) nor one of `-`, `_`, `.` replaced by
`_`) + `.json`; in particular every character of the sanitised middle
part is a word character or one of `-`, `_`, `.`, and for
`São Paulo!` the filename is `restaurants_são_paulo_.json` (which does
not match the ASCII regex of the original claim). -/
theorem c2_filename_amended :
    (∀ city : String,
      save_to_json_filename city = "restaurants_" ++ safe_city_name city ++ ".json" ∧
      ∀ c ∈ (safe_city_name city).data,
        pyIsWordChar c = true ∨ c = '-' ∨ c = '_' ∨ c = '.') ∧
    save_to_json_filename "São Paulo!" = "restaurants_são_paulo_.json" := by
  refine ⟨fun city => ⟨rfl, ?_⟩, by decide⟩
  intro c hc
  simp only [safe_city_name, data_mk_eq, List.mem_map] at hc
  obtain ⟨d, _, rfl⟩ := hc
  by_cases hw : (pyIsWordChar d || d = '-' || d = '_' || d = '.') = true
  · rw [if_pos hw]
    simp only [Bool.or_eq_true, decide_eq_true_eq] at hw
    tauto
  · rw [if_neg hw]
    simp

theorem c2_filename_amended_witness :
    pyIsWordChar 'ã' = true ∨ 'ã' = '-' ∨ 'ã' = '_' ∨ 'ã' = '.' :=
  (c2_filename_amended.1 "São Paulo!").2 'ã' (by decide)

/-- A fixed randomness stream for concrete runs. -/
def rand0 : Nat → ℚ × Nat := fun _ => (mkRat 4 1, 100)

/-- A page with no result blocks and no visible text. -/
def emptySoup : Soup := ⟨[], ""⟩

/-- Claim C1 (corrected), the counterexample: a successful fetch of a page
from which nothing is extracted yields the empty list, not the sample
data — the sample data replaces the output only when the fetch raises —
so the final record list can be empty. -/
theorem c1_fallback_counterexample :
    search_restaurants (.ok emptySoup) "Paris" rand0 = [] ∧
    search_restaurants (.ok emptySoup) "Paris" rand0 ≠ (create_sample_data "Paris").take 10 :=
  ⟨by decide, by decide⟩

/-- Claim C1 (amended): only a fetch failure (an exception) replaces the
output with the Sample-Data Provider list; in that case the output is
exactly the ten sample records for the query city and is non-empty.
When the fetch succeeds but extraction finds nothing, the output is
empty (see the counterexample). -/
theorem c1_fallback_amended (city : String) (rand : Nat → ℚ × Nat) :
    search_restaurants .failed city rand = create_sample_data city ∧
    search_restaurants .failed city rand ≠ [] := by
  have hlen : (create_sample_data city).length = 10 := by simp [create_sample_data]
  have htake : (create_sample_data city).take 10 = create_sample_data city :=
    List.take_of_length_le (by rw [hlen])
  constructor
  · exact htake
  · show (create_sample_data city).take 10 ≠ []
    rw [htake]
    simp [create_sample_data]

theorem c1_fallback_amended_witness :
    search_restaurants .failed "Paris" rand0 = create_sample_data "Paris" ∧
    search_restaurants .failed "Paris" rand0 ≠ [] :=
  c1_fallback_amended "Paris" rand0

/-- A page whose only block has the heading `, restaurant` (which passes
the keyword test but whose cleaned name is empty). -/
def c3Soup : Soup := ⟨[⟨some ", restaurant", "", ""⟩], ""⟩

/-- Claim C3 (corrected), the counterexample: the primary extraction pass
can produce a record whose `name` is empty — a block titled
`, restaurant` passes the keyword filter, and `clean_restaurant_name`
keeps only the (empty, stripped) part before the first comma. -/
theorem c3_name_counterexample :
    (extract_restaurant_info c3Soup "Paris" rand0).map Restaurant.name = [""] ∧
    is_restaurant_result ", restaurant" = true ∧
    clean_restaurant_name ", restaurant" = "" :=
  ⟨by decide, by decide, by decide⟩

theorem altPass_name_ne_empty (city : String) (rand : Nat → ℚ × Nat) :
    ∀ (lns : List (List Char)) (acc : List Restaurant),
      (∀ r ∈ acc, r.name ≠ "") → ∀ r ∈ altPass city rand lns acc, r.name ≠ "" := by
  intro lns
  induction lns with
  | nil => intro acc hacc; simpa [altPass] using hacc
  | cons ln lns ih =>
    intro acc hacc
    have hnew : ∀ r ∈ acc ++ [altRecord city rand acc.length (pyStripList ln)],
        altLineOk (pyStripList ln) = true → r.name ≠ "" := by
      intro r hr hok
      rcases List.mem_append.mp hr with h1 | h1
      · exact hacc r h1
      · have h2 : r = altRecord city rand acc.length (pyStripList ln) := by
          simpa using h1
        subst h2
        simp only [altLineOk, Bool.and_eq_true, decide_eq_true_eq] at hok
        intro he
        have h3 : (pyStripList ln).length = 0 := by
          have := congrArg String.data he
          simp only [altRecord, data_mk_eq] at this
          simp [this]
        omega
    rw [altPass]
    split
    next hok =>
      split
      · intro r hr
        exact hnew r hr hok
      · exact ih _ fun r hr => hnew r hr hok
    · exact ih acc hacc

/-- Claim C3 (amended): every record produced by the alternative fallback
pass and by the sample-data provider has a non-empty `name`; the primary
extraction pass, however, can produce an empty name (see the
counterexample). -/
theorem c3_name_amended :
    (∀ (soup : Soup) (city : String) (rand : Nat → ℚ × Nat),
      ∀ r ∈ extract_alternative_results soup city rand, r.name ≠ "") ∧
    (∀ city : String, ∀ r ∈ create_sample_data city, r.name ≠ "") := by
  constructor
  · intro soup city rand
    exact altPass_name_ne_empty city rand _ [] (by simp)
  · intro city r hr
    simp only [create_sample_data, List.mem_cons, List.not_mem_nil, or_false] at hr
    rcases hr with rfl | rfl | rfl | rfl | rfl | rfl | rfl | rfl | rfl | rfl <;>
      · intro he
        have := congrArg String.data he
        simp [String.data_append] at this

/-- A page whose visible text is a single qualifying line. -/
def c3AltSoup : Soup := ⟨[], "Great Steak restaurant downtown"⟩

theorem c3_name_amended_witness :
    ({ name := "Great Steak restaurant downtown", rating := some (mkRat 4 1),
       reviews := some 100, description := "Popular restaurant in Paris", city := "Paris",
       url := "", cuisine_type := "Various" } : Restaurant).name ≠ "" ∧
    ({ name := "The Golden Fork - Paris", rating := some (mkRat 9 2), reviews := some 234,
       description := "Upscale dining experience in the heart of Paris. Known for exceptional service and innovative cuisine.",
       city := "Paris", url := "https://example.com/golden-fork",
       cuisine_type := "American" } : Restaurant).name ≠ "" :=
  ⟨c3_name_amended.1 c3AltSoup "Paris" rand0 _ (by decide),
   c3_name_amended.2 "Paris" _ (by decide)⟩

/-! ### Name cleaning -/

theorem mem_of_mem_pyStripList {c : Char} {l : List Char} (h : c ∈ pyStripList l) : c ∈ l := by
  simp only [pyStripList, List.mem_reverse] at h
  have h1 := (List.dropWhile_suffix isSpaceChar).sublist.subset h
  rw [List.mem_reverse] at h1
  exact (List.dropWhile_suffix isSpaceChar).sublist.subset h1

theorem markerHere_true_newline {s : List Char} (h : markerHere s = some true) : '\n' ∈ s := by
  unfold markerHere at h
  split at h
  next r1 heq =>
    obtain ⟨w, _, hw⟩ := List.exists_of_findSome?_eq_some h
    have hmem : '\n' ∈ (r1.dropWhile isSpaceChar).drop w.data.length := by
      by_cases h1 : ciStarts w.data (r1.dropWhile isSpaceChar) = true
      · rw [if_pos h1] at hw
        by_cases h2 : (!((r1.dropWhile isSpaceChar).drop w.data.length).contains '\n') = true
        · rw [if_pos h2] at hw
          simp at hw
        · rw [if_neg h2] at hw
          simp only [Bool.not_eq_true, Bool.not_eq_true'] at h2
          simpa using h2
      · rw [if_neg h1] at hw
        simp at hw
    have h3 : '\n' ∈ r1 :=
      (List.dropWhile_suffix isSpaceChar).sublist.subset (List.mem_of_mem_drop hmem)
    have h4 : '\n' ∈ s.dropWhile isSpaceChar := by
      rw [heq]
      exact List.mem_cons_of_mem _ h3
    exact (List.dropWhile_suffix isSpaceChar).sublist.subset h4
  next => simp at h

theorem stripTrailingAux_no_newline :
    ∀ s acc : List Char, '\n' ∉ s →
      ∃ u, stripTrailingAux acc s = acc.reverse ++ u ∧ u.IsPrefix s := by
  intro s
  induction s with
  | nil =>
    intro acc _
    refine ⟨[], ?_, List.nil_prefix⟩
    rw [stripTrailingAux]
    simp [markerHere]
  | cons c t ih =>
    intro acc hnl
    rw [stripTrailingAux]
    cases hm : markerHere (c :: t) with
    | some tnl =>
      cases tnl with
      | true => exact absurd (markerHere_true_newline hm) hnl
      | false => exact ⟨[], by simp, List.nil_prefix⟩
    | none =>
      obtain ⟨u, hu, hp⟩ := ih (c :: acc) fun hmem => hnl (List.mem_cons_of_mem _ hmem)
      obtain ⟨k, hk⟩ := hp
      refine ⟨c :: u, ?_, ⟨k, by simp [hk]⟩⟩
      rw [hu]
      simp

/-- Claim C9: `clean_restaurant_name` first strips a trailing
`- (Menu|Reviews?|Yelp|TripAdvisor|OpenTable)...` segment (so on
newline-free titles the first stage returns a prefix of the title), then
strips a leading `Top N` / `Best N`, then keeps the trimmed portion
before the first of the characters `-`, `–`, `—`, `,` (so the result
never contains a separator character); in particular the title
`Top 10 Mama's Kitchen - Menu, Reviews - Yelp` yields `Mama's Kitchen`. -/
theorem c9_clean_name :
    clean_restaurant_name "Top 10 Mama\x27s Kitchen - Menu, Reviews - Yelp" = "Mama\x27s Kitchen" ∧
    (∀ t : String, ∀ c ∈ sepChars, c ∉ (clean_restaurant_name t).data) ∧
    (∀ t : String, '\n' ∉ t.data → ((stripTrailingMarker t).data).IsPrefix t.data) := by
  refine ⟨by decide, ?_, ?_⟩
  · intro t c hc hmem
    simp only [clean_restaurant_name, pyStrip, data_mk_eq] at hmem
    have h1 := mem_of_mem_pyStripList hmem
    have h2 := List.mem_takeWhile_imp h1
    rw [Bool.not_eq_true'] at h2
    have h3 : sepChars.contains c = true :=
      List.contains_iff_exists_mem_beq.mpr ⟨c, hc, by simp⟩
    rw [h2] at h3
    cases h3
  · intro t hnl
    obtain ⟨u, hu, hp⟩ := stripTrailingAux_no_newline t.data [] hnl
    simpa [stripTrailingMarker, hu] using hp

theorem c9_clean_name_witness :
    ('-' ∉ (clean_restaurant_name "A - Menu").data) ∧
    ((stripTrailingMarker "A - Menu").data).IsPrefix "A - Menu".data :=
  ⟨c9_clean_name.2.1 "A - Menu" '-' (by decide), c9_clean_name.2.2 "A - Menu" (by decide)⟩

/-! ### Rating extraction -/

theorem ratInRangeB_iff (q : ℚ) : ratInRangeB q = true ↔ (0 ≤ q ∧ q ≤ 5) := by
  simp only [ratInRangeB, Bool.and_eq_true, decide_eq_true_eq]
  refine and_congr Rat.num_nonneg ?_
  rw [Rat.le_def]
  norm_num

theorem ratingLoop_eq_find? (ps : List (List Char → Option ℚ)) (s : List Char) :
    ratingLoop ps s = (ps.filterMap fun p => reSearch p s).find? ratInRangeB := by
  induction ps with
  | nil => rfl
  | cons p ps ih =>
    cases h : reSearch p s with
    | none => rw [ratingLoop, h, List.filterMap_cons, h, ih]
    | some q =>
      rw [ratingLoop, h, List.filterMap_cons, h]
      cases hr : ratInRangeB q with
      | true => simp [List.find?, hr]
      | false => simp [List.find?, hr, ih]

theorem ratingLoop_mem_range (ps : List (List Char → Option ℚ)) (s : List Char) (q : ℚ)
    (h : ratingLoop ps s = some q) : ratInRangeB q = true := by
  induction ps with
  | nil => cases h
  | cons p ps ih =>
    rw [ratingLoop] at h
    split at h
    · split at h
      next hr => cases h; exact hr
      next => exact ih h
    · exact ih h

/-- Claim C7: rating extraction tries the four patterns in source order
and returns the first leftmost-match value that lies in [0, 5], skipping
a pattern whose match is out of range and continuing with the remaining
patterns (the `find? ratInRangeB` characterisation); every returned
value lies in [0, 5]; `9.9 stars` yields no rating and `4.5 stars`
yields 9/2 = 4.5. -/
theorem c7_rating_extraction :
    (∀ text : String,
      extract_rating_from_text text =
        (ratingPatterns.filterMap fun p => reSearch p text.data).find? ratInRangeB) ∧
    (∀ (text : String) (q : ℚ), extract_rating_from_text text = some q → 0 ≤ q ∧ q ≤ 5) ∧
    extract_rating_from_text "9.9 stars" = none ∧
    extract_rating_from_text "4.5 stars" = some (mkRat 9 2) ∧
    (mkRat 9 2 : ℚ) = 9 / 2 := by
  refine ⟨?_, ?_, by decide, by decide, ?_⟩
  · intro text
    exact ratingLoop_eq_find? ratingPatterns text.data
  · intro text q h
    exact (ratInRangeB_iff q).mp (ratingLoop_mem_range ratingPatterns text.data q h)
  · rw [Rat.mkRat_eq_div]
    norm_num

theorem c7_rating_extraction_witness : 0 ≤ mkRat 9 2 ∧ mkRat 9 2 ≤ 5 :=
  c7_rating_extraction.2.1 "4.5 stars" (mkRat 9 2) (by decide)

/-! ### Persister keys -/

theorem digitsAux_eq_digits : ∀ fuel n, n ≤ fuel → digitsAux fuel n = Nat.digits 10 n := by
  intro fuel
  induction fuel with
  | zero =>
    intro n hn
    have h : n = 0 := by omega
    subst h
    simp [digitsAux]
  | succ f ih =>
    intro n hn
    by_cases h : n = 0
    · subst h
      simp [digitsAux]
    · have hlt : n / 10 < n := Nat.div_lt_self (Nat.pos_of_ne_zero h) (by norm_num)
      rw [digitsAux, if_neg h, Nat.digits_def' (by norm_num : (1 : Nat) < 10) (Nat.pos_of_ne_zero h),
        ih (n / 10) (by omega)]

theorem digitChar_inj_lt : ∀ a, a < 10 → ∀ b, b < 10 → Nat.digitChar a = Nat.digitChar b → a = b := by
  decide

theorem map_digitChar_inj : ∀ l₁ l₂ : List Nat, (∀ d ∈ l₁, d < 10) → (∀ d ∈ l₂, d < 10) →
    l₁.map Nat.digitChar = l₂.map Nat.digitChar → l₁ = l₂ := by
  intro l₁
  induction l₁ with
  | nil =>
    intro l₂ _ _ h
    cases l₂ with
    | nil => rfl
    | cons b bs => cases h
  | cons a as ih =>
    intro l₂ h1 h2 h
    cases l₂ with
    | nil => cases h
    | cons b bs =>
      simp only [List.map_cons, List.cons.injEq] at h
      have hab : a = b :=
        digitChar_inj_lt a (h1 a (List.mem_cons_self _ _)) b (h2 b (List.mem_cons_self _ _)) h.1
      rw [hab, ih bs (fun d hd => h1 d (List.mem_cons_of_mem _ hd))
        (fun d hd => h2 d (List.mem_cons_of_mem _ hd)) h.2]

theorem natToStr_inj : Function.Injective natToStr := by
  intro m n h
  have h1 : ((digitsAux m m).map Nat.digitChar).reverse =
      ((digitsAux n n).map Nat.digitChar).reverse := congrArg String.data h
  rw [digitsAux_eq_digits m m le_rfl, digitsAux_eq_digits n n le_rfl] at h1
  have h2 := List.reverse_injective h1
  have h3 : Nat.digits 10 m = Nat.digits 10 n :=
    map_digitChar_inj _ _ (fun d hd => Nat.digits_lt_base (by norm_num) hd)
      (fun d hd => Nat.digits_lt_base (by norm_num) hd) h2
  have h4 := congrArg (Nat.ofDigits 10) h3
  rwa [Nat.ofDigits_digits, Nat.ofDigits_digits] at h4

theorem candKey_inj (orig : String) : Function.Injective (candKey orig) := by
  intro a b h
  have h1 := congrArg String.data h
  simp only [candKey, String.data_append, List.append_assoc] at h1
  have h2 := List.append_cancel_left (List.append_cancel_left h1)
  have h4 : (natToStr a).data = (natToStr b).data := by
    have h3 := congrArg List.dropLast h2
    simpa [List.dropLast_concat] using h3
  exact natToStr_inj (string_ext h4)

theorem freshKeyAux_form (keys : List String) (orig : String) :
    ∀ fuel c, ∃ d, c ≤ d ∧ freshKeyAux keys orig fuel c = candKey orig d := by
  intro fuel
  induction fuel with
  | zero => intro c; exact ⟨c, le_rfl, rfl⟩
  | succ f ih =>
    intro c
    rw [freshKeyAux]
    split
    · obtain ⟨d, hd, he⟩ := ih (c + 1)
      exact ⟨d, by omega, he⟩
    · exact ⟨c, le_rfl, rfl⟩

theorem freshKeyAux_not_mem (keys : List String) (orig : String) :
    ∀ fuel c, (∃ d, c ≤ d ∧ d < c + fuel + 1 ∧ candKey orig d ∉ keys) →
      freshKeyAux keys orig fuel c ∉ keys := by
  intro fuel
  induction fuel with
  | zero =>
    rintro c ⟨d, h1, h2, h3⟩
    have h4 : d = c := by omega
    subst h4
    exact h3
  | succ f ih =>
    rintro c ⟨d, h1, h2, h3⟩
    rw [freshKeyAux]
    split
    next hm =>
      apply ih
      have hdc : d ≠ c := by
        rintro rfl
        exact h3 hm
      exact ⟨d, by omega, by omega, h3⟩
    next hm => exact hm

theorem freshKey_not_mem (keys : List String) (orig : String) : freshKey keys orig ∉ keys := by
  rw [freshKey]
  split
  · apply freshKeyAux_not_mem
    by_contra hall
    push_neg at hall
    have hsub : ((List.range' 2 (keys.length + 1)).map (candKey orig)) ⊆ keys := by
      intro x hx
      obtain ⟨d, hd, rfl⟩ := List.mem_map.mp hx
      have hd2 := List.mem_range'_1.mp hd
      exact hall d hd2.1 (by omega)
    have hnd : ((List.range' 2 (keys.length + 1)).map (candKey orig)).Nodup :=
      (List.nodup_range' 2 (keys.length + 1)).map (candKey_inj orig)
    have hle := (hnd.subperm hsub).length_le
    simp only [List.length_map, List.length_range'] at hle
    omega
  next h => exact h

theorem freshKey_shape (keys : List String) (orig : String) :
    freshKey keys orig = orig ∨ ∃ c, 2 ≤ c ∧ freshKey keys orig = candKey orig c := by
  rw [freshKey]
  split
  · right
    obtain ⟨d, hd, he⟩ := freshKeyAux_form keys orig (keys.length + 1) 2
    exact ⟨d, hd, he⟩
  · left
    rfl

theorem saveAux_keys_nodup :
    ∀ (rs : List Restaurant) (i : Nat) (acc : List (String × SavedEntry)),
      (acc.map Prod.fst).Nodup → ((saveAux rs i acc).map Prod.fst).Nodup := by
  intro rs
  induction rs with
  | nil => intro i acc h; simpa [saveAux] using h
  | cons r rs ih =>
    intro i acc h
    rw [saveAux]
    apply ih
    rw [List.map_append, List.map_cons, List.map_nil, List.nodup_append]
    refine ⟨h, List.nodup_singleton _, ?_⟩
    intro a ha hb
    rw [List.mem_singleton] at hb
    subst hb
    exact freshKey_not_mem _ _ ha

theorem saveAux_ranks :
    ∀ (rs : List Restaurant) (i : Nat) (acc : List (String × SavedEntry)),
      (saveAux rs i acc).map (fun kv => kv.2.rank) =
        acc.map (fun kv => kv.2.rank) ++ List.range' i rs.length := by
  intro rs
  induction rs with
  | nil => intro i acc; simp [saveAux]
  | cons r rs ih =>
    intro i acc
    rw [saveAux, ih]
    simp [entryOf, List.range'_succ]

theorem saveAux_key_shape :
    ∀ (rs : List Restaurant) (i : Nat) (acc : List (String × SavedEntry)),
      ∀ kv ∈ saveAux rs i acc,
        kv ∈ acc ∨ ∃ r ∈ rs, kv.1 = r.name ∨ ∃ c, 2 ≤ c ∧ kv.1 = candKey r.name c := by
  intro rs
  induction rs with
  | nil =>
    intro i acc kv hkv
    rw [saveAux] at hkv
    exact Or.inl hkv
  | cons r rs ih =>
    intro i acc kv hkv
    rw [saveAux] at hkv
    rcases ih (i + 1) _ kv hkv with h1 | ⟨r', hr', hsh⟩
    · rcases List.mem_append.mp h1 with h2 | h2
      · exact Or.inl h2
      · right
        refine ⟨r, List.mem_cons_self _ _, ?_⟩
        have h3 : kv = (freshKey (acc.map Prod.fst) r.name, entryOf i r) := by
          simpa using h2
        rcases freshKey_shape (acc.map Prod.fst) r.name with h4 | ⟨c, hc, h4⟩
        · left
          rw [h3]
          exact h4
        · right
          exact ⟨c, hc, by rw [h3]; exact h4⟩
    · exact Or.inr ⟨r', List.mem_cons_of_mem _ hr', hsh⟩

/-- A record named `Cafe X`, for the duplicate-key scenario of claim C8. -/
def cafeX : Restaurant :=
  { name := "Cafe X", rating := none, reviews := none, description := "",
    city := "Paris", url := "", cuisine_type := "Various" }

/-- Claim C8: the Persister keys every record by its `name`, on a
collision appending ` (2)`, ` (3)`, … (the first counter that makes the
key unused), so the resulting keys are pairwise distinct and every key
is the record name or the name followed by ` (c)` with `c ≥ 2`; each
value records `rank` equal to the record's 1-based position; two records
both named `Cafe X` give the keys `Cafe X` and `Cafe X (2)`. -/
theorem c8_persister_keys :
    (∀ rs : List Restaurant, ((save_to_json_dict rs).map Prod.fst).Nodup) ∧
    (∀ rs : List Restaurant,
      (save_to_json_dict rs).map (fun kv => kv.2.rank) = List.range' 1 rs.length) ∧
    (∀ rs : List Restaurant, ∀ kv ∈ save_to_json_dict rs,
      ∃ r ∈ rs, kv.1 = r.name ∨ ∃ c, 2 ≤ c ∧ kv.1 = r.name ++ " (" ++ natToStr c ++ ")") ∧
    (save_to_json_dict [cafeX, cafeX]).map Prod.fst = ["Cafe X", "Cafe X (2)"] := by
  refine ⟨?_, ?_, ?_, by decide⟩
  · intro rs
    exact saveAux_keys_nodup rs 1 [] (by simp)
  · intro rs
    simpa using saveAux_ranks rs 1 []
  · intro rs kv hkv
    rcases saveAux_key_shape rs 1 [] kv hkv with h | h
    · cases h
    · exact h

theorem c8_persister_keys_witness :
    ∃ r ∈ [cafeX, cafeX], ("Cafe X", entryOf 1 cafeX).1 = r.name ∨
      ∃ c, 2 ≤ c ∧ ("Cafe X", entryOf 1 cafeX).1 = r.name ++ " (" ++ natToStr c ++ ")" :=
  c8_persister_keys.2.2.1 [cafeX, cafeX] ("Cafe X", entryOf 1 cafeX) (by decide)

/-! ### Review-count extraction -/

theorem reSearch_eq_none_iff {α : Type} (m : List Char → Option α) :
    ∀ s : List Char, reSearch m s = none ↔ ∀ t : List Char, t.IsSuffix s → m t = none := by
  intro s
  induction s with
  | nil =>
    rw [reSearch]
    constructor
    · intro h t ht
      rw [List.suffix_nil.mp ht]
      exact h
    · intro h
      exact h [] List.suffix_rfl
  | cons c t ih =>
    rw [reSearch]
    split
    next v hm =>
      constructor
      · intro h
        cases h
      · intro h
        have h2 := h (c :: t) List.suffix_rfl
        rw [hm] at h2
        cases h2
    next hm =>
      rw [ih]
      constructor
      · intro h u hu
        rcases List.suffix_cons_iff.mp hu with rfl | hu2
        · exact hm
        · exact h u hu2
      · intro h u hu
        exact h u (hu.trans (List.suffix_cons c t))

theorem reSearch_some_suffix {α : Type} {m : List Char → Option α} :
    ∀ {s : List Char} {v : α}, reSearch m s = some v →
      ∃ t : List Char, t.IsSuffix s ∧ m t = some v := by
  intro s
  induction s with
  | nil =>
    intro v h
    rw [reSearch] at h
    exact ⟨[], List.suffix_rfl, h⟩
  | cons c t ih =>
    intro v h
    rw [reSearch] at h
    split at h
    next v' hm =>
      cases h
      exact ⟨c :: t, List.suffix_rfl, hm⟩
    next =>
      obtain ⟨u, hu, hm⟩ := ih h
      exact ⟨u, hu.trans (List.suffix_cons c t), hm⟩

theorem checkRev2_imp_checkRev1 {p : Nat × List Char} {v : Nat} (h : checkRev2 p = some v) :
    checkRev1 p = some v := by
  simp only [checkRev2] at h
  simp only [checkRev1]
  split at h
  next h1 =>
    rw [if_pos h1]
    split at h
    · exact h
    · cases h
  next => cases h

theorem matchRev2At_imp {s : List Char} {v : Nat} (h : matchRev2At s = some v) :
    ∃ t : List Char, t.IsSuffix s ∧ matchRev1At t ≠ none := by
  unfold matchRev2At at h
  split at h
  next rest =>
    obtain ⟨p, hp, hcv⟩ := List.exists_of_findSome?_eq_some h
    refine ⟨rest, ⟨['('], rfl⟩, ?_⟩
    rw [matchRev1At]
    intro hnone
    have h2 := List.findSome?_eq_none_iff.mp hnone p hp
    rw [checkRev2_imp_checkRev1 hcv] at h2
    cases h2
  next => cases h

theorem dropWhile_head_false {p : Char → Bool} :
    ∀ (l : List Char) (x : Char) (xs : List Char), l.dropWhile p = x :: xs → p x = false := by
  intro l
  induction l with
  | nil => intro x xs h; cases h
  | cons c t ih =>
    intro x xs h
    rw [List.dropWhile_cons] at h
    split at h
    · exact ih x xs h
    next hc =>
      cases h
      simpa using hc

theorem countGroups_eq_zero {l : List Char} (h : ∀ x xs, l = x :: xs → x ≠ ',') :
    countGroups l = 0 := by
  unfold countGroups
  split
  next d1 d2 d3 rest => exact absurd rfl (h ',' (d1 :: d2 :: d3 :: rest) rfl)
  next => rfl

theorem matchRev3At_imp {s : List Char} {v : Nat} (h : matchRev3At s = some v) :
    ∃ t : List Char, t.IsSuffix s ∧ matchRev1At t ≠ none := by
  unfold matchRev3At at h
  split at h
  next c tl =>
    by_cases hd : c.isDigit = true
    case neg => rw [if_neg hd] at h; cases h
    rw [if_pos hd] at h
    by_cases hrev :
        ciStarts "review".data (((c :: tl).dropWhile Char.isDigit).dropWhile isSpaceChar) = true
    case neg => rw [if_neg hrev] at h; cases h
    -- the digit run and what follows it
    set ds := (c :: tl).takeWhile Char.isDigit with hds
    set rest := (c :: tl).dropWhile Char.isDigit with hrest
    have hdsne : ds ≠ [] := by
      rw [hds, List.takeWhile_cons, if_pos hd]
      simp
    have hsplit : ds ++ rest = c :: tl :=
      List.takeWhile_append_dropWhile Char.isDigit (c :: tl)
    -- the head of `rest` (if any) is neither a digit nor a comma
    have hrd : ∀ x xs, rest = x :: xs → x.isDigit = false := fun x xs hx =>
      dropWhile_head_false (c :: tl) x xs hx
    have hrc : ∀ x xs, rest = x :: xs → x ≠ ',' := by
      intro x xs hx
      rintro rfl
      have hns : isSpaceChar ',' = false := by decide
      have hx2 : rest.dropWhile isSpaceChar = ',' :: xs := by
        rw [hx, List.dropWhile_cons, if_neg (by simp [hns])]
      rw [hx2] at hrev
      rw [show "review".data = 'r' :: "eview".data from rfl, ciStarts] at hrev
      have hcc : (asciiLowerChar ',' == asciiLowerChar 'r') = false := by decide
      rw [hcc, Bool.false_and] at hrev
      cases hrev
    have hcg : countGroups rest = 0 := countGroups_eq_zero hrc
    -- the last digit of the run, followed by `rest`, is a suffix where
    -- pattern 1 matches
    refine ⟨ds.getLast hdsne :: rest, ?_, ?_⟩
    · refine ⟨ds.dropLast, ?_⟩
      show ds.dropLast ++ ([ds.getLast hdsne] ++ rest) = c :: tl
      rw [← List.append_assoc,
        show ds.dropLast ++ [ds.getLast hdsne] = ds from List.dropLast_append_getLast hdsne]
      exact hsplit
    · have hgd : (ds.getLast hdsne).isDigit = true :=
        List.mem_takeWhile_imp (List.getLast_mem hdsne)
      have ht3 : takeExactDigits 3 (ds.getLast hdsne :: rest) = none := by
        rcases hr : rest with _ | ⟨x, xs⟩
        · simp [takeExactDigits, hgd]
        · simp [takeExactDigits, hgd, hrd x xs hr]
      have ht2 : takeExactDigits 2 (ds.getLast hdsne :: rest) = none := by
        rcases hr : rest with _ | ⟨x, xs⟩
        · simp [takeExactDigits, hgd]
        · simp [takeExactDigits, hgd, hrd x xs hr]
      have ht1 : takeExactDigits 1 (ds.getLast hdsne :: rest) =
          some ([ds.getLast hdsne], rest) := by
        simp [takeExactDigits, hgd]
      rw [matchRev1At]
      rw [show cnumSplits (ds.getLast hdsne :: rest) =
          groupSplits [ds.getLast hdsne] rest ++ [] from by
        rw [cnumSplits]
        rw [show [3, 2, 1].filterMap (fun dl => takeExactDigits dl (ds.getLast hdsne :: rest)) =
            [([ds.getLast hdsne], rest)] from by
          simp [List.filterMap_cons, ht3, ht2, ht1]]
        simp [List.flatMap]]
      rw [show groupSplits [ds.getLast hdsne] rest =
          [(digitsToNat [ds.getLast hdsne], rest)] from by
        simp [groupSplits, hcg, List.range_succ]]
      simp only [List.append_nil, List.findSome?, checkRev1]
      rw [if_pos (by exact hrev)]
      simp
  next => cases h

/-- Claim C10: review-count extraction is fully determined by its first
pattern `(\d{1,3}(?:,\d{3})*)\s*reviews?`: any position where the
parenthesised second pattern or the plain-digits third pattern matches
contains a position where the first pattern also matches, so on every
input the full three-pattern search returns exactly what a
first-pattern-only search returns; e.g. `1234 reviews` yields 234 under
both. -/
theorem c10_review_first_pattern :
    (∀ text : String, extract_review_count text = reviewCountFirstPatternOnly text) ∧
    extract_review_count "1234 reviews" = some 234 ∧
    reviewCountFirstPatternOnly "1234 reviews" = some 234 := by
  refine ⟨?_, by decide, by decide⟩
  intro text
  unfold extract_review_count reviewCountFirstPatternOnly
  cases h1 : reSearch matchRev1At text.data with
  | some n => rfl
  | none =>
    have hnone : ∀ t : List Char, t.IsSuffix text.data → matchRev1At t = none :=
      (reSearch_eq_none_iff matchRev1At text.data).mp h1
    have h2 : reSearch matchRev2At text.data = none := by
      cases hx : reSearch matchRev2At text.data with
      | none => rfl
      | some v =>
        exfalso
        obtain ⟨t, ht, hm⟩ := reSearch_some_suffix hx
        obtain ⟨u, hu, hne⟩ := matchRev2At_imp hm
        exact hne (hnone u (hu.trans ht))
    have h3 : reSearch matchRev3At text.data = none := by
      cases hx : reSearch matchRev3At text.data with
      | none => rfl
      | some v =>
        exfalso
        obtain ⟨t, ht, hm⟩ := reSearch_some_suffix hx
        obtain ⟨u, hu, hne⟩ := matchRev3At_imp hm
        exact hne (hnone u (hu.trans ht))
    rw [h2, h3]

end RF
